import Mathlib

/-!
A shallow embedding of the point_cloud_viewer repository: the filtered point
iteration over octree nodes, the batch iterator and its callback protocol, the
gRPC point streaming client, the X-Ray tile pyramid and rasterization entry
point, the intensity coloring strategy, and the ECEF S2 splitter with its LRU
of node writers.  Floating point values are embedded as rationals, machine
integers as naturals, and panics as `Option`/`Except` failures.
-/

namespace PointCloudViewer

/-- A 3-vector of rational coordinates, embedding the `Vector3<f64>` world
positions used throughout the repository. -/
structure Vec3 where
  x : ℚ
  y : ℚ
  z : ℚ
deriving DecidableEq, Repr

/-- RGBA colour with 8-bit channels, embedding `Color<u8>`. -/
structure Color where
  red : ℕ
  green : ℕ
  blue : ℕ
  alpha : ℕ
deriving DecidableEq, Repr

/-- A point as delivered by the node readers (`Point` in the repository):
position, colour, and optional intensity. -/
structure Point where
  position : Vec3
  color : Color
  intensity : Option ℚ
deriving DecidableEq, Repr

/-! ## Filtered point iteration (src/src/octree/octree_iterator.rs)

`FilteredPointsIterator` holds a `Box<dyn PointCulling>` and a `NodeIterator`.
The culling object is embedded as its `contains` predicate on positions; the
node iterator is embedded as the list of points it will yield. -/

/-- One call of `FilteredPointsIterator::next`:
`self.node_iterator.find(|pt| culling.contains(&pos))` — consume points of the
node iterator until the first one whose position the culling region contains,
returning it together with the unconsumed remainder of the node iterator. -/
def nextFiltered (culling : Vec3 → Bool) : List Point → Option (Point × List Point)
  | [] => none
  | pt :: rest =>
      if culling pt.position then some (pt, rest) else nextFiltered culling rest

lemma nextFiltered_spec {culling : Vec3 → Bool} :
    ∀ {pts : List Point},
      (nextFiltered culling pts = none →
        pts.filter (fun pt => culling pt.position) = []) ∧
      (∀ {pt : Point} {rest : List Point},
        nextFiltered culling pts = some (pt, rest) →
          pts.filter (fun pt => culling pt.position)
              = pt :: rest.filter (fun pt => culling pt.position) ∧
            rest.length < pts.length) := by
  intro pts
  induction pts with
  | nil => exact ⟨fun _ => rfl, fun h => by simp [nextFiltered] at h⟩
  | cons q qs ih =>
      by_cases hc : culling q.position
      · refine ⟨fun h => ?_, fun h => ?_⟩
        · simp [nextFiltered, hc] at h
        · simp only [nextFiltered, hc, if_true, Option.some.injEq, Prod.mk.injEq] at h
          obtain ⟨h1, h2⟩ := h
          subst h1; subst h2
          exact ⟨by simp [List.filter, hc], by simp⟩
      · refine ⟨fun h => ?_, fun h => ?_⟩
        · simp only [nextFiltered, hc, if_false] at h
          simp [List.filter, hc, ih.1 h]
        · simp only [nextFiltered, hc, if_false] at h
          obtain ⟨h1, h2⟩ := ih.2 h
          exact ⟨by simp [List.filter, hc, h1], Nat.lt_succ_of_lt h2⟩

/-- The sequence of points emitted by driving `FilteredPointsIterator::next`
until it returns `None`, with explicit fuel (one unit per consumed node point;
`pts.length` units always suffice). -/
def emittedFilteredFuel (culling : Vec3 → Bool) : ℕ → List Point → List Point
  | 0, _ => []
  | fuel + 1, pts =>
      match nextFiltered culling pts with
      | none => []
      | some (pt, rest) => pt :: emittedFilteredFuel culling fuel rest

/-- The full sequence of points emitted by the filtered iterator over a node. -/
def emittedFiltered (culling : Vec3 → Bool) (pts : List Point) : List Point :=
  emittedFilteredFuel culling pts.length pts

lemma emittedFilteredFuel_eq_filter (culling : Vec3 → Bool) :
    ∀ (fuel : ℕ) (pts : List Point), pts.length ≤ fuel →
      emittedFilteredFuel culling fuel pts
        = pts.filter (fun pt => culling pt.position) := by
  intro fuel
  induction fuel with
  | zero =>
      intro pts hlen
      rw [Nat.le_zero, List.length_eq_zero] at hlen
      simp [hlen, emittedFilteredFuel]
  | succ n ih =>
      intro pts hlen
      rcases h : nextFiltered culling pts with _ | ⟨pt, rest⟩
      · simp [emittedFilteredFuel, h, (nextFiltered_spec.1 h).symm]
      · obtain ⟨h1, h2⟩ := nextFiltered_spec.2 h
        have : rest.length ≤ n := Nat.lt_succ_iff.mp (Nat.lt_of_lt_of_le h2 hlen)
        simp [emittedFilteredFuel, h, h1, ih rest this]

lemma emittedFiltered_eq_filter (culling : Vec3 → Bool) (pts : List Point) :
    emittedFiltered culling pts = pts.filter (fun pt => culling pt.position) :=
  emittedFilteredFuel_eq_filter culling pts.length pts le_rfl

/-- Claim C1: every point yielded by the filtered point iteration over an octree node
lies inside the culling region: for every region predicate `R.contains` and every
point `pt` emitted by `FilteredPointsIterator`, `R.contains pt.position` holds,
so no point whose position lies outside the region is ever emitted. -/
theorem filtered_points_inside_region (culling : Vec3 → Bool)
    (pts : List Point) (pt : Point)
    (hmem : pt ∈ emittedFiltered culling pts) :
    culling pt.position = true := by
  rw [emittedFiltered_eq_filter] at hmem
  exact (List.mem_filter.mp hmem).2

/-- A sample culling region (the half space of nonnegative x) for the C1 witness. -/
def sampleCulling : Vec3 → Bool := fun v => decide (0 ≤ v.x)

/-- A sample point inside `sampleCulling`. -/
def samplePointIn : Point :=
  { position := ⟨1, 0, 0⟩, color := ⟨0, 0, 0, 0⟩, intensity := none }

/-- A sample point outside `sampleCulling`. -/
def samplePointOut : Point :=
  { position := ⟨-1, 0, 0⟩, color := ⟨0, 0, 0, 0⟩, intensity := none }

/-- Witness for C1 at a concrete culling region and node point list. -/
theorem filtered_points_inside_region_witness :
    samplePointIn ∈ emittedFiltered sampleCulling [samplePointOut, samplePointIn] ∧
      sampleCulling samplePointIn.position = true :=
  ⟨by decide,
   filtered_points_inside_region sampleCulling [samplePointOut, samplePointIn]
     samplePointIn (by decide)⟩

/-! ## Batch iteration (src/src/octree/batch_iterator.rs)

`PointStream` buffers positions, colours and intensities and hands full batches
to the user callback.  The callback is embedded as a function into
`Except ε Unit`, `Err` meaning "stop". -/

/-- The two `LayerData` variants that `PointStream::callback` constructs: the
colour column (`U8Vec4`) and the intensity column (`F32`).  The source enum has
further variants; the batch iterator never builds them. -/
inductive LayerData where
  | U8Vec4 (values : List Color)
  | F32 (values : List ℚ)
deriving DecidableEq, Repr

/-- The length of an attribute column. -/
def LayerData.length : LayerData → ℕ
  | .U8Vec4 vs => vs.length
  | .F32 vs => vs.length

/-- A batch as delivered to the user callback (`PointData`): positions plus the
attribute layers keyed by name.  The `FnvHashMap` is embedded as an association
list holding `"color"` first and, when present, `"intensity"` second — the
insertion order of `PointStream::callback`. -/
structure PointData where
  position : List Vec3
  layers : List (String × LayerData)
deriving DecidableEq, Repr

/-- The accumulating state of `PointStream`: the three column buffers plus the
optional `local_from_global` transform applied to every pushed position.  The
user callback `func` is passed separately to the operations below. -/
structure PointStream where
  position : List Vec3
  color : List Color
  intensity : List ℚ
  localFromGlobal : Option (Vec3 → Vec3)

/-- A fresh `PointStream` (`PointStream::new`). -/
def emptyPointStream (localFromGlobal : Option (Vec3 → Vec3)) : PointStream :=
  { position := [], color := [], intensity := [], localFromGlobal }

/-- `PointStream::push_point`: transform the position into the local frame when
one is configured, always push position and colour, and push intensity only when
the point carries one. -/
def PointStream.pushPoint (s : PointStream) (pt : Point) : PointStream :=
  let position :=
    match s.localFromGlobal with
    | some localFromGlobal => localFromGlobal pt.position
    | none => pt.position
  { s with
    position := s.position ++ [position]
    color := s.color ++ [pt.color]
    intensity := s.intensity ++ (match pt.intensity with | some i => [i] | none => []) }

/-- The `PointData` built by `PointStream::callback`: the colour layer is always
inserted, the intensity layer only when the intensity buffer is nonempty. -/
def PointStream.makeBatch (s : PointStream) : PointData :=
  { position := s.position
    layers := ("color", LayerData.U8Vec4 s.color)
        :: (if s.intensity.isEmpty then []
            else [("intensity", LayerData.F32 s.intensity)]) }

/-- `PointStream::callback`: do nothing on an empty position buffer, otherwise
deliver the accumulated batch to `func` and drain the buffers (`split_off(0)`).
Returns the callback result, the resulting stream, and the delivered batches. -/
def PointStream.callback {ε : Type} (F : PointData → Except ε Unit)
    (s : PointStream) : Except ε Unit × PointStream × List PointData :=
  if s.position.isEmpty then (.ok (), s, [])
  else
    (F s.makeBatch,
     { s with position := [], color := [], intensity := [] },
     [s.makeBatch])

/-- `PointStream::push_point_and_callback`: push the point, then flush when the
position buffer reaches the batch capacity. -/
def PointStream.pushPointAndCallback {ε : Type} (batchSize : ℕ)
    (F : PointData → Except ε Unit) (s : PointStream) (pt : Point) :
    Except ε Unit × PointStream × List PointData :=
  let s' := s.pushPoint pt
  if s'.position.length = batchSize then s'.callback F else (.ok (), s', [])

/-- The `iterator.try_for_each(...)` loop of `BatchIterator::try_for_each_batch`:
push each culled point, aborting at the first callback error. -/
def runPoints {ε : Type} (batchSize : ℕ) (F : PointData → Except ε Unit) :
    PointStream → List Point → Except ε Unit × PointStream × List PointData
  | s, [] => (.ok (), s, [])
  | s, pt :: rest =>
      match PointStream.pushPointAndCallback batchSize F s pt with
      | (.error e, s', bs) => (.error e, s', bs)
      | (.ok _, s', bs) =>
          match runPoints batchSize F s' rest with
          | (r, s'', bs') => (r, s'', bs ++ bs')

/-- `BatchIterator::try_for_each_batch`: stream the culled points through a
fresh `PointStream`, propagating the first callback error (the `?` operator),
and flush the residual batch at the end.  Returns the overall result together
with the batches delivered to the callback. -/
def tryForEachBatch {ε : Type} (batchSize : ℕ) (F : PointData → Except ε Unit)
    (localFromGlobal : Option (Vec3 → Vec3)) (points : List Point) :
    Except ε Unit × List PointData :=
  match runPoints batchSize F (emptyPointStream localFromGlobal) points with
  | (.error e, _, bs) => (.error e, bs)
  | (.ok _, s, bs) =>
      match s.callback F with
      | (r, _, bs') => (r, bs ++ bs')

lemma callback_inv {ε : Type} (F : PointData → Except ε Unit)
    (I : PointStream → Prop) (P : PointData → Prop)
    (hclear : ∀ s, I s → I { s with position := [], color := [], intensity := [] })
    (hmk : ∀ s, I s → s.position ≠ [] → P s.makeBatch)
    (s : PointStream) (hI : I s) :
    I (s.callback F).2.1 ∧ ∀ b ∈ (s.callback F).2.2, P b := by
  by_cases h : s.position.isEmpty
  · simp [PointStream.callback, h, hI]
  · refine ⟨?_, ?_⟩
    · simpa [PointStream.callback, h] using hclear s hI
    · intro b hb
      simp [PointStream.callback, h] at hb
      subst hb
      exact hmk s hI (by simpa [List.isEmpty_iff] using h)

lemma runPoints_inv {ε : Type} (batchSize : ℕ) (F : PointData → Except ε Unit)
    (Q : Point → Prop) (I : PointStream → Prop) (P : PointData → Prop)
    (hpush : ∀ s pt, I s → Q pt → I (s.pushPoint pt))
    (hclear : ∀ s, I s → I { s with position := [], color := [], intensity := [] })
    (hmk : ∀ s, I s → s.position ≠ [] → P s.makeBatch) :
    ∀ (points : List Point) (s : PointStream), I s → (∀ pt ∈ points, Q pt) →
      I (runPoints batchSize F s points).2.1 ∧
        ∀ b ∈ (runPoints batchSize F s points).2.2, P b := by
  intro points
  induction points with
  | nil => intro s hI _; simpa [runPoints] using hI
  | cons pt rest ih =>
      intro s hI hQ
      have hI' : I (s.pushPoint pt) := hpush s pt hI (hQ pt (by simp))
      have hstep :
          I (PointStream.pushPointAndCallback batchSize F s pt).2.1 ∧
            ∀ b ∈ (PointStream.pushPointAndCallback batchSize F s pt).2.2, P b := by
        by_cases hfull : (s.pushPoint pt).position.length = batchSize
        · simpa [PointStream.pushPointAndCallback, hfull] using
            callback_inv F I P hclear hmk (s.pushPoint pt) hI'
        · simpa [PointStream.pushPointAndCallback, hfull] using hI'
      have hQrest : ∀ q ∈ rest, Q q := fun q hq => hQ q (by simp [hq])
      rcases hstepEq : PointStream.pushPointAndCallback batchSize F s pt
        with ⟨r0, s0, bs0⟩
      rw [hstepEq] at hstep
      rcases r0 with e | u
      · simpa [runPoints, hstepEq] using hstep
      · rcases hrec : runPoints batchSize F s0 rest with ⟨r1, s1, bs1⟩
        have hih := ih s0 hstep.1 hQrest
        rw [hrec] at hih
        refine ⟨?_, ?_⟩
        · simpa [runPoints, hstepEq, hrec] using hih.1
        · intro b hb
          simp only [runPoints, hstepEq, hrec, List.mem_append] at hb
          rcases hb with hb | hb
          · exact hstep.2 b hb
          · exact hih.2 b hb

lemma tryForEachBatch_inv {ε : Type} (batchSize : ℕ) (F : PointData → Except ε Unit)
    (localFromGlobal : Option (Vec3 → Vec3)) (points : List Point)
    (Q : Point → Prop) (I : PointStream → Prop) (P : PointData → Prop)
    (hpush : ∀ s pt, I s → Q pt → I (s.pushPoint pt))
    (hclear : ∀ s, I s → I { s with position := [], color := [], intensity := [] })
    (hmk : ∀ s, I s → s.position ≠ [] → P s.makeBatch)
    (hinit : I (emptyPointStream localFromGlobal))
    (hQ : ∀ pt ∈ points, Q pt) :
    ∀ b ∈ (tryForEachBatch batchSize F localFromGlobal points).2, P b := by
  intro b hb
  have hrun := runPoints_inv batchSize F Q I P hpush hclear hmk points
    (emptyPointStream localFromGlobal) hinit hQ
  rcases hrunEq : runPoints batchSize F (emptyPointStream localFromGlobal) points
    with ⟨r, s, bs⟩
  rw [hrunEq] at hrun
  rcases r with e | u
  · exact hrun.2 b (by simpa [tryForEachBatch, hrunEq] using hb)
  · have hcb := callback_inv F I P hclear hmk s hrun.1
    rcases hcbEq : s.callback F with ⟨r', s', bs'⟩
    rw [hcbEq] at hcb
    simp only [tryForEachBatch, hrunEq, hcbEq, List.mem_append] at hb
    rcases hb with hb | hb
    · exact hrun.2 b hb
    · exact hcb.2 b hb

lemma lookup_color_head (x : LayerData) (rest : List (String × LayerData)) :
    (("color", x) :: rest).lookup "color" = some x := by
  simp [List.lookup]

lemma lookup_intensity_head (x y : LayerData) (rest : List (String × LayerData)) :
    (("color", x) :: ("intensity", y) :: rest).lookup "intensity" = some y := rfl

lemma lookup_intensity_none (x : LayerData) :
    [("color", x)].lookup "intensity" = none := rfl

/-- Claim C2, amended: in every batch delivered by `BatchIterator::try_for_each_batch`
the colour column always has the position count's length; the intensity column
has that length whenever every streamed point carries an intensity, and is
absent whenever none does.  (In a mixed batch the intensity column is shorter —
see the counterexample.) -/
theorem batch_columns_match_positions {ε : Type} (batchSize : ℕ)
    (F : PointData → Except ε Unit) (localFromGlobal : Option (Vec3 → Vec3))
    (points : List Point) (b : PointData)
    (hb : b ∈ (tryForEachBatch batchSize F localFromGlobal points).2) :
    (∃ l, b.layers.lookup "color" = some (LayerData.U8Vec4 l) ∧
        l.length = b.position.length) ∧
      ((∀ pt ∈ points, pt.intensity.isSome = true) →
        ∃ l, b.layers.lookup "intensity" = some (LayerData.F32 l) ∧
          l.length = b.position.length) ∧
      ((∀ pt ∈ points, pt.intensity = none) →
        b.layers.lookup "intensity" = none) := by
  refine ⟨?_, fun hall => ?_, fun hnone => ?_⟩
  · refine tryForEachBatch_inv batchSize F localFromGlobal points (fun _ => True)
      (fun s => s.color.length = s.position.length)
      (fun b => ∃ l, b.layers.lookup "color" = some (LayerData.U8Vec4 l) ∧
        l.length = b.position.length)
      ?_ ?_ ?_ rfl (by simp) b hb
    · intro s pt hI _
      simp [PointStream.pushPoint, hI]
    · intro s hI
      simp
    · intro s hI _
      exact ⟨s.color, lookup_color_head _ _, hI⟩
  · refine tryForEachBatch_inv batchSize F localFromGlobal points
      (fun pt => pt.intensity.isSome = true)
      (fun s => s.intensity.length = s.position.length)
      (fun b => ∃ l, b.layers.lookup "intensity" = some (LayerData.F32 l) ∧
        l.length = b.position.length)
      ?_ ?_ ?_ rfl hall b hb
    · intro s pt hI hQ
      rcases hsome : pt.intensity with _ | i
      · simp [hsome] at hQ
      · simp [PointStream.pushPoint, hsome, hI]
    · intro s hI
      simp
    · intro s hI hpos
      have hlen : s.intensity.length ≠ 0 := by
        rw [hI]
        simpa using hpos
      have hne : s.intensity.isEmpty = false := by
        simpa [List.isEmpty_iff, ← List.length_eq_zero] using hlen
      refine ⟨s.intensity, ?_, hI⟩
      simp [PointStream.makeBatch, hne, lookup_intensity_head]
  · refine tryForEachBatch_inv batchSize F localFromGlobal points
      (fun pt => pt.intensity = none)
      (fun s => s.intensity = [])
      (fun b => b.layers.lookup "intensity" = none)
      ?_ ?_ ?_ rfl hnone b hb
    · intro s pt hI hQ
      simp [PointStream.pushPoint, hQ, hI]
    · intro s hI
      simp
    · intro s hI _
      simp [PointStream.makeBatch, hI, lookup_intensity_none]

/-- The always-continue callback used by the concrete batch iterator runs. -/
def okCallback : PointData → Except Unit Unit := fun _ => .ok ()

/-- A sample point carrying an intensity. -/
def pointWithIntensity : Point :=
  { position := ⟨0, 0, 0⟩, color := ⟨1, 2, 3, 4⟩, intensity := some 5 }

/-- A sample point without intensity. -/
def pointWithoutIntensity : Point :=
  { position := ⟨1, 0, 0⟩, color := ⟨5, 6, 7, 8⟩, intensity := none }

/-- A second sample point carrying an intensity. -/
def pointWithIntensity2 : Point :=
  { position := ⟨2, 0, 0⟩, color := ⟨9, 10, 11, 12⟩, intensity := some 7 }

/-- Counterexample to C2 as stated: a batch mixing a point with intensity and a
point without yields an intensity column of length 1 against 2 positions, so not
every attribute column matches the position count. -/
theorem batch_columns_counterexample :
    ∃ b ∈ (tryForEachBatch 2 okCallback none
        [pointWithIntensity, pointWithoutIntensity]).2,
      (b.layers.lookup "intensity").isSome = true ∧
        Option.map LayerData.length (b.layers.lookup "intensity")
          ≠ some b.position.length := by decide

/-- The single batch delivered when both sample intensity points are streamed
with batch size 2. -/
def fullIntensityBatch : PointData :=
  { position := [⟨0, 0, 0⟩, ⟨2, 0, 0⟩]
    layers := [("color", LayerData.U8Vec4 [⟨1, 2, 3, 4⟩, ⟨9, 10, 11, 12⟩]),
               ("intensity", LayerData.F32 [5, 7])] }

/-- Witness for the amended C2 at a concrete homogeneous run. -/
theorem batch_columns_match_positions_witness :
    fullIntensityBatch ∈ (tryForEachBatch 2 okCallback none
        [pointWithIntensity, pointWithIntensity2]).2 ∧
      ((∃ l, fullIntensityBatch.layers.lookup "color"
            = some (LayerData.U8Vec4 l) ∧
          l.length = fullIntensityBatch.position.length) ∧
        ((∀ pt ∈ [pointWithIntensity, pointWithIntensity2],
            pt.intensity.isSome = true) →
          ∃ l, fullIntensityBatch.layers.lookup "intensity"
              = some (LayerData.F32 l) ∧
            l.length = fullIntensityBatch.position.length) ∧
        ((∀ pt ∈ [pointWithIntensity, pointWithIntensity2],
            pt.intensity = none) →
          fullIntensityBatch.layers.lookup "intensity" = none)) :=
  ⟨by decide,
   batch_columns_match_positions 2 okCallback none
     [pointWithIntensity, pointWithIntensity2] fullIntensityBatch (by decide)⟩

/-! ## gRPC point streaming client (src/point_viewer_grpc/src/lib.rs)

`GrpcOctree::get_points_in_box` folds a stream of replies, handing each reply's
points to a `bool`-returning callback; `false` raises
`grpcio::Error::QueueShutdown` inside the stream and sets `interrupted`.
Transport failures are not modelled — the reply stream is given as pure data. -/

/-- The gRPC-side errors reaching `get_points_in_box`: the queue shutdown raised
to interrupt the stream, and the generic `ErrorKind::Grpc` of `map_err`. -/
inductive GrpcError where
  | queueShutdown
  | grpc
deriving DecidableEq, Repr

/-- One `GetPointsInBox` streaming reply. -/
structure GrpcReply where
  positions : List Vec3
  colors : List Color
  intensities : List ℚ
deriving Repr

/-- The points pushed for one reply: positions zipped with colours, then, when
the intensity count matches the position count, intensities zipped onto the new
points.  (The `Color<f32>::to_u8` conversion lives in repository code outside
the excerpt; colours are embedded already converted.) -/
def replyPoints (r : GrpcReply) : List Point :=
  let base := (r.positions.zip r.colors).map
    (fun pc => { position := pc.1, color := pc.2, intensity := none })
  if r.intensities.length = r.positions.length then
    (r.intensities.zip base).map (fun ib => { ib.2 with intensity := some ib.1 })
      ++ base.drop r.intensities.length
  else base

/-- The `replies.for_each(...)` loop: deliver each reply's points to `func`;
on `false` raise `QueueShutdown` and record the interruption.  Returns the
result of `.wait()`, the `interrupted` flag, and the `func` invocations. -/
def grpcForEach (func : List Point → Bool) :
    List GrpcReply → Except GrpcError Unit × Bool × List (List Point)
  | [] => (.ok (), false, [])
  | r :: rest =>
      let pts := replyPoints r
      if func pts then
        match grpcForEach func rest with
        | (res, intr, invs) => (res, intr, pts :: invs)
      else (.error .queueShutdown, true, [pts])

/-- `GrpcOctree::get_points_in_box`: run the stream fold; any stream error is
mapped to `ErrorKind::Grpc`, but when the error came from the callback
interruption it is swallowed (`if result.is_err() && !interrupted`) and the call
returns `Ok(())`. -/
def grpcGetPointsInBox (replies : List GrpcReply) (func : List Point → Bool) :
    Except GrpcError Unit × List (List Point) :=
  match grpcForEach func replies with
  | (res, interrupted, invs) =>
      match res with
      | .error _ => if interrupted then (.ok (), invs) else (.error .grpc, invs)
      | .ok _ => (.ok (), invs)

lemma grpcForEach_error_interrupted (func : List Point → Bool) :
    ∀ (replies : List GrpcReply) (e : GrpcError),
      (grpcForEach func replies).1 = .error e →
        (grpcForEach func replies).2.1 = true := by
  intro replies
  induction replies with
  | nil => intro e h; simp [grpcForEach] at h
  | cons r rest ih =>
      intro e h
      by_cases hf : func (replyPoints r)
      · rcases hrec : grpcForEach func rest with ⟨res, intr, invs⟩
        rw [grpcForEach, if_pos hf, hrec] at h ⊢
        have := ih e (by rw [hrec]; exact h)
        rw [hrec] at this
        exact this
      · simp [grpcForEach, hf]

lemma grpcGetPointsInBox_ok (replies : List GrpcReply) (func : List Point → Bool) :
    (grpcGetPointsInBox replies func).1 = .ok () := by
  rcases h : grpcForEach func replies with ⟨res, interrupted, invs⟩
  rcases res with e | u
  · have hint : interrupted = true := by
      have := grpcForEach_error_interrupted func replies e (by rw [h])
      rw [h] at this
      exact this
    simp [grpcGetPointsInBox, h, hint]
  · simp [grpcGetPointsInBox, h]

lemma grpcForEach_dropLast (func : List Point → Bool) :
    ∀ (replies : List GrpcReply),
      ∀ v ∈ (grpcForEach func replies).2.2.dropLast, func v = true := by
  intro replies
  induction replies with
  | nil => intro v hv; simp [grpcForEach] at hv
  | cons r rest ih =>
      intro v hv
      by_cases hf : func (replyPoints r)
      · rcases hrec : grpcForEach func rest with ⟨res, intr, invs⟩
        rw [grpcForEach, if_pos hf, hrec] at hv
        rcases invs with _ | ⟨i0, irest⟩
        · simp at hv
        · rw [List.dropLast_cons₂] at hv
          rcases List.mem_cons.mp hv with hv | hv
          · exact hv ▸ hf
          · exact ih v (by rw [hrec]; exact hv)
      · simp [grpcForEach, hf] at hv

lemma grpcGetPointsInBox_dropLast (replies : List GrpcReply)
    (func : List Point → Bool) :
    ∀ v ∈ (grpcGetPointsInBox replies func).2.dropLast, func v = true := by
  intro v hv
  rcases h : grpcForEach func replies with ⟨res, interrupted, invs⟩
  have hsub : v ∈ invs.dropLast := by
    rcases res with e | u
    · rcases interrupted with _ | _ <;>
        simpa [grpcGetPointsInBox, h] using hv
    · simpa [grpcGetPointsInBox, h] using hv
  have := grpcForEach_dropLast func replies v (by rw [h]; exact hsub)
  exact this

lemma callback_cases {ε : Type} (F : PointData → Except ε Unit) (s : PointStream) :
    s.callback F = (.ok (), s, []) ∨
      ∃ b0 s0, s.callback F = (F b0, s0, [b0]) := by
  by_cases h : s.position.isEmpty
  · left; simp [PointStream.callback, h]
  · right
    exact ⟨s.makeBatch, { s with position := [], color := [], intensity := [] },
      by simp [PointStream.callback, h]⟩

lemma pushPointAndCallback_cases {ε : Type} (batchSize : ℕ)
    (F : PointData → Except ε Unit) (s : PointStream) (pt : Point) :
    s.pushPointAndCallback batchSize F pt = (.ok (), s.pushPoint pt, []) ∨
      ∃ b0 s0, s.pushPointAndCallback batchSize F pt = (F b0, s0, [b0]) := by
  by_cases hfull : (s.pushPoint pt).position.length = batchSize
  · have hne : (s.pushPoint pt).position.isEmpty = false := by
      simp [PointStream.pushPoint]
    right
    refine ⟨(s.pushPoint pt).makeBatch,
      { s.pushPoint pt with position := [], color := [], intensity := [] }, ?_⟩
    simp [PointStream.pushPointAndCallback, hfull, PointStream.callback, hne]
  · left; simp [PointStream.pushPointAndCallback, hfull]

lemma runPoints_result {ε : Type} (batchSize : ℕ) (F : PointData → Except ε Unit) :
    ∀ (points : List Point) (s : PointStream),
      ((runPoints batchSize F s points).1 = .ok () →
        ∀ b ∈ (runPoints batchSize F s points).2.2, F b = .ok ()) ∧
      (∀ e, (runPoints batchSize F s points).1 = .error e →
        ∃ b, (runPoints batchSize F s points).2.2.getLast? = some b ∧
          F b = .error e ∧
          ∀ b' ∈ (runPoints batchSize F s points).2.2.dropLast, F b' = .ok ()) := by
  intro points
  induction points with
  | nil =>
      intro s
      exact ⟨fun _ b hb => by simp [runPoints] at hb,
        fun e he => by simp [runPoints] at he⟩
  | cons pt rest ih =>
      intro s
      rcases pushPointAndCallback_cases batchSize F s pt with hstep | ⟨b0, s0, hstep⟩
      · -- no flush: the recursion carries everything
        rcases hrec : runPoints batchSize F (s.pushPoint pt) rest with ⟨r1, s1, bs1⟩
        have hih := ih (s.pushPoint pt)
        rw [hrec] at hih
        constructor
        · intro hok b hb
          simp only [runPoints, hstep, hrec, List.nil_append] at hok hb
          exact hih.1 hok b hb
        · intro e he
          simp only [runPoints, hstep, hrec, List.nil_append] at he ⊢
          exact hih.2 e he
      · rcases hF : F b0 with e0 | u0
        · -- the flushed batch stopped the iteration
          constructor
          · intro hok b hb
            simp only [runPoints, hstep, hF] at hok
            exact Except.noConfusion hok
          · intro e he
            simp only [runPoints, hstep, hF] at he ⊢
            refine ⟨b0, by simp, ?_, by simp⟩
            rw [hF, Except.error.injEq]
            exact Except.error.inj he
        · -- the flushed batch let the iteration continue
          rcases hrec : runPoints batchSize F s0 rest with ⟨r1, s1, bs1⟩
          have hih := ih s0
          rw [hrec] at hih
          constructor
          · intro hok b hb
            simp only [runPoints, hstep, hF, hrec, List.singleton_append] at hok hb
            rcases List.mem_cons.mp hb with hb | hb
            · rw [hb]; exact hF
            · exact hih.1 hok b hb
          · intro e he
            simp only [runPoints, hstep, hF, hrec, List.singleton_append] at he ⊢
            obtain ⟨b, hlast, hberr, hprev⟩ := hih.2 e he
            have hne : bs1 ≠ [] := by
              intro hnil
              rw [hnil] at hlast
              simp at hlast
            refine ⟨b, ?_, hberr, ?_⟩
            · rw [List.getLast?_cons, hlast]
              simp
            · intro b' hb'
              rcases bs1 with _ | ⟨c, cs⟩
              · exact absurd rfl hne
              · rw [List.dropLast_cons₂] at hb'
                rcases List.mem_cons.mp hb' with hb' | hb'
                · rw [hb']; exact hF
                · exact hprev b' hb'

/-- Claim C3, amended: when the user callback requests stop, iteration terminates
immediately in both paths — the stopping batch is the last one delivered and
every earlier batch was continued.  The local `BatchIterator::try_for_each_batch`
returns the callback's error (`Cancelled`) to its caller; the remote
`GrpcOctree::get_points_in_box`, however, swallows the interruption and returns
`Ok(())` instead of the `Cancelled` outcome. -/
theorem cancellation_terminates_iteration {ε : Type} (batchSize : ℕ)
    (F : PointData → Except ε Unit) (localFromGlobal : Option (Vec3 → Vec3))
    (points : List Point) (e : ε)
    (hr : (tryForEachBatch batchSize F localFromGlobal points).1 = .error e)
    (replies : List GrpcReply) (func : List Point → Bool) :
    (∃ b, (tryForEachBatch batchSize F localFromGlobal points).2.getLast?
          = some b ∧
        F b = .error e) ∧
      (∀ b ∈ (tryForEachBatch batchSize F localFromGlobal points).2.dropLast,
        F b = .ok ()) ∧
      (grpcGetPointsInBox replies func).1 = .ok () ∧
      (∀ v ∈ (grpcGetPointsInBox replies func).2.dropLast, func v = true) := by
  refine ⟨?_, ?_, grpcGetPointsInBox_ok replies func,
    grpcGetPointsInBox_dropLast replies func⟩ <;>
  · rcases hrun : runPoints batchSize F (emptyPointStream localFromGlobal) points
      with ⟨r, s, bs⟩
    have hres := runPoints_result batchSize F points (emptyPointStream localFromGlobal)
    rw [hrun] at hres
    rcases r with e' | u
    · simp only [tryForEachBatch, hrun] at hr ⊢
      have he' : e' = e := Except.error.inj hr
      subst he'
      obtain ⟨b, hlast, hberr, hprev⟩ := hres.2 e' rfl
      first
        | exact ⟨b, hlast, hberr⟩
        | exact hprev
    · rcases callback_cases F s with hcb | ⟨b0, s0, hcb⟩
      · simp only [tryForEachBatch, hrun, hcb] at hr
        exact Except.noConfusion hr
      · simp only [tryForEachBatch, hrun, hcb] at hr ⊢
        have hall := hres.1 rfl
        first
          | exact ⟨b0, by rw [List.getLast?_concat], by rw [hr]⟩
          | · intro b hb
              rw [List.dropLast_concat] at hb
              exact hall b hb

/-- The always-stop callback used by the concrete cancellation runs. -/
def stopCallback : PointData → Except Unit Unit := fun _ => .error ()

/-- A sample streaming reply carrying a single point and no intensities. -/
def sampleReply : GrpcReply :=
  { positions := [⟨0, 0, 0⟩], colors := [⟨1, 1, 1, 1⟩], intensities := [] }

/-- Counterexample to C3 as stated: in the remote path, a callback that requests
stop on the very first reply is invoked exactly once, yet
`GrpcOctree::get_points_in_box` returns `Ok(())` — not the `Cancelled` outcome
the claim promises for both paths. -/
theorem grpc_cancellation_counterexample :
    (grpcGetPointsInBox [sampleReply] (fun _ => false)).1 = .ok () ∧
      (grpcGetPointsInBox [sampleReply] (fun _ => false)).2.length = 1 :=
  ⟨rfl, rfl⟩

/-- Witness for the amended C3 at a concrete cancelled local run and a concrete
remote stream. -/
theorem cancellation_terminates_iteration_witness :
    (tryForEachBatch 1 stopCallback none [pointWithIntensity]).1 = .error () ∧
      ((∃ b, (tryForEachBatch 1 stopCallback none [pointWithIntensity]).2.getLast?
            = some b ∧
          stopCallback b = .error ()) ∧
        (∀ b ∈ (tryForEachBatch 1 stopCallback none
              [pointWithIntensity]).2.dropLast,
          stopCallback b = .ok ()) ∧
        (grpcGetPointsInBox [sampleReply] (fun _ => true)).1 = .ok () ∧
        (∀ v ∈ (grpcGetPointsInBox [sampleReply] (fun _ => true)).2.dropLast,
          (fun (_ : List Point) => true) v = true)) :=
  ⟨rfl,
   cancellation_terminates_iteration 1 stopCallback none [pointWithIntensity] ()
     rfl [sampleReply] (fun _ => true)⟩

/-! ## X-Ray tile pyramid (src/xray/src/generation.rs, `build_parent`) -/

/-- An 8-bit RGB pixel (`image::Rgb<u8>`). -/
structure Rgb where
  r : ℕ
  g : ℕ
  b : ℕ
deriving DecidableEq, Repr

/-- `image::RgbImage`: dimensions plus the pixel grid, embedded as a total
function (values outside the dimensions are never consulted). -/
structure Image where
  width : ℕ
  height : ℕ
  pix : ℕ → ℕ → Rgb

/-- The white pixel `Rgb { data: [255, 255, 255] }`. -/
def whiteRgb : Rgb := ⟨255, 255, 255⟩

/-- `image::RgbImage::from_pixel`. -/
def imageFromPixel (w h : ℕ) (c : Rgb) : Image := ⟨w, h, fun _ _ => c⟩

/-- `GenericImage::copy_from(src, xoffs, yoffs)`: paste `src` into `dst` with
its top-left corner at `(xoffs, yoffs)`. -/
def copyFrom (dst src : Image) (xoffs yoffs : ℕ) : Image :=
  { dst with
    pix := fun x y =>
      if xoffs ≤ x ∧ x < xoffs + src.width ∧ yoffs ≤ y ∧ y < yoffs + src.height
      then src.pix (x - xoffs) (y - yoffs)
      else dst.pix x y }

/-- The child validation loop of `build_parent`: skip absent children; assert
that every present child is square and that all share one edge length
(`None` = a panic); the accumulator is the running `child_size_px`. -/
def childSizeLoop : List (Option Image) → Option ℕ → Option (Option ℕ)
  | [], acc => some acc
  | none :: rest, acc => childSizeLoop rest acc
  | some c :: rest, acc =>
      if c.width = c.height then
        match acc with
        | none => childSizeLoop rest (some c.width)
        | some w => if w = c.width then childSizeLoop rest (some w) else none
      else none

/-- The `if let Some(ref img) = children[id]` copy step of `build_parent`. -/
def applyChild (img : Image) (child : Option Image) (xoffs yoffs : ℕ) : Image :=
  match child with
  | some c => copyFrom img c xoffs yoffs
  | none => img

/-- The quadrant layout table of `build_parent`:
`(child index, x offset, y offset)`. -/
def quadrantOffsets (n : ℕ) : List (ℕ × ℕ × ℕ) :=
  [(1, 0, 0), (0, 0, n), (3, n, 0), (2, n, n)]

/-- `build_parent`: compose four optional equal-size square tiles into one
double-size tile on a white background.  Panics (`none`) unless exactly four
children are passed, every present child is square of one shared edge length,
and at least one child is present (the `expect` on `child_size_px`). -/
def buildParent (children : List (Option Image)) : Option Image :=
  if children.length = 4 then
    match childSizeLoop children none with
    | none => none
    | some none => none
    | some (some n) =>
        some ((quadrantOffsets n).foldl
          (fun img idc => applyChild img (children.getD idc.1 none) idc.2.1 idc.2.2)
          (imageFromPixel (2 * n) (2 * n) whiteRgb))
  else none

/-- Counterexample to C4 as stated: `build_parent([None, None, None, None])`
does not return an (all-white or any other) image — it fails. -/
theorem build_parent_all_none_counterexample :
    ¬∃ img, buildParent [none, none, none, none] = some img := by
  intro ⟨img, h⟩
  exact Option.noConfusion h

/-- Claim C4, amended: calling `build_parent` with four absent children panics on
`expect("No children passed to 'build_parent'")` — embedded as `none` — rather
than returning a white image. -/
theorem build_parent_panics_without_children :
    buildParent (List.replicate 4 none) = none := rfl

lemma childSizeLoop_all_n (n : ℕ) :
    ∀ cs : List (Option Image),
      (∀ c ∈ cs, ∀ img, c = some img → img.width = n ∧ img.height = n) →
      childSizeLoop cs (some n) = some (some n) ∧
        childSizeLoop cs none
          = some (if cs.any Option.isSome then some n else none) := by
  intro cs
  induction cs with
  | nil => intro _; exact ⟨rfl, rfl⟩
  | cons c rest ih =>
      intro hsq
      have hrest : ∀ c ∈ rest, ∀ img, c = some img → img.width = n ∧ img.height = n :=
        fun c hc img h => hsq c (by simp [hc]) img h
      rcases c with _ | img
      · refine ⟨(ih hrest).1, ?_⟩
        simpa [childSizeLoop] using (ih hrest).2
      · obtain ⟨hw, hh⟩ := hsq (some img) (by simp) img rfl
        constructor
        · simp [childSizeLoop, hw, hh, (ih hrest).1]
        · simp [childSizeLoop, hw, hh, (ih hrest).1]

lemma applyChild_width (img : Image) (child : Option Image) (xo yo : ℕ) :
    (applyChild img child xo yo).width = img.width := by
  cases child <;> rfl

lemma applyChild_height (img : Image) (child : Option Image) (xo yo : ℕ) :
    (applyChild img child xo yo).height = img.height := by
  cases child <;> rfl

lemma applyChild_pix {n : ℕ} (img : Image) (child : Option Image)
    (hch : ∀ c, child = some c → c.width = n ∧ c.height = n) (xo yo x y : ℕ) :
    (applyChild img child xo yo).pix x y
      = if xo ≤ x ∧ x < xo + n ∧ yo ≤ y ∧ y < yo + n then
          match child with
          | some c => c.pix (x - xo) (y - yo)
          | none => img.pix x y
        else img.pix x y := by
  rcases child with _ | c
  · simp [applyChild]
  · obtain ⟨hw, hh⟩ := hch c rfl
    by_cases h : xo ≤ x ∧ x < xo + n ∧ yo ≤ y ∧ y < yo + n
    · simp [applyChild, copyFrom, hw, hh, h]
    · simp [applyChild, copyFrom, hw, hh, h]

/-- The quadrant layout as worded by the spec: child 1 fills the top-left
quadrant, child 0 the bottom-left, child 3 the top-right, child 2 the
bottom-right, and a quadrant whose child is absent is white. -/
def parentSpecPix (children : List (Option Image)) (n x y : ℕ) : Rgb :=
  let chosen : Option Image × ℕ × ℕ :=
    if x < n then
      if y < n then (children.getD 1 none, x, y)
      else (children.getD 0 none, x, y - n)
    else
      if y < n then (children.getD 3 none, x - n, y)
      else (children.getD 2 none, x - n, y - n)
  match chosen with
  | (some c, u, v) => c.pix u v
  | (none, _, _) => whiteRgb

lemma fourQuadrants_pix (c0 c1 c2 c3 : Option Image) (n : ℕ)
    (hch0 : ∀ c, c0 = some c → c.width = n ∧ c.height = n)
    (hch1 : ∀ c, c1 = some c → c.width = n ∧ c.height = n)
    (hch2 : ∀ c, c2 = some c → c.width = n ∧ c.height = n)
    (hch3 : ∀ c, c3 = some c → c.width = n ∧ c.height = n)
    (x y : ℕ) (hx : x < 2 * n) (hy : y < 2 * n) :
    (applyChild (applyChild (applyChild
          (applyChild (imageFromPixel (2 * n) (2 * n) whiteRgb) c1 0 0)
          c0 0 n) c3 n 0) c2 n n).pix x y
      = parentSpecPix [c0, c1, c2, c3] n x y := by
  rw [applyChild_pix _ _ hch2, applyChild_pix _ _ hch3, applyChild_pix _ _ hch0,
    applyChild_pix _ _ hch1]
  by_cases hx1 : x < n <;> by_cases hy1 : y < n
  · rw [if_neg (by omega), if_neg (by omega), if_neg (by omega), if_pos (by omega)]
    rcases c1 with _ | c <;>
      simp [parentSpecPix, hx1, hy1, List.getD, imageFromPixel, whiteRgb]
  · rw [if_neg (by omega), if_neg (by omega), if_pos (by omega)]
    rcases c0 with _ | c <;>
      simp [parentSpecPix, hx1, hy1, List.getD, imageFromPixel, whiteRgb]
  · rw [if_neg (by omega), if_pos (by omega)]
    rcases c3 with _ | c <;>
      simp [parentSpecPix, hx1, hy1, List.getD, imageFromPixel, whiteRgb]
  · rw [if_pos (by omega)]
    rcases c2 with _ | c <;>
      simp [parentSpecPix, hx1, hy1, List.getD, imageFromPixel, whiteRgb]

/-- Claim C7, amended: for every call of `build_parent` with four optional square
child images of one shared edge length `n`, at least one of them present, the
result is a `2n × 2n` image whose quadrants follow the fixed layout — child 1
top-left, child 0 bottom-left, child 3 top-right, child 2 bottom-right — and
every quadrant whose child is absent is all white.  (With all four children
absent the call panics instead; see the counterexample.) -/
theorem build_parent_quadrant_layout (children : List (Option Image)) (n : ℕ)
    (hlen : children.length = 4)
    (hsq : ∀ c ∈ children, ∀ img, c = some img → img.width = n ∧ img.height = n)
    (hsome : children.any Option.isSome = true) :
    ∃ img, buildParent children = some img ∧ img.width = 2 * n ∧
      img.height = 2 * n ∧
      ∀ x y, x < 2 * n → y < 2 * n →
        img.pix x y = parentSpecPix children n x y := by
  rcases children with _ | ⟨c0, children⟩
  · simp at hlen
  rcases children with _ | ⟨c1, children⟩
  · simp at hlen
  rcases children with _ | ⟨c2, children⟩
  · simp at hlen
  rcases children with _ | ⟨c3, children⟩
  · simp at hlen
  rcases children with _ | ⟨c4, children⟩
  swap
  · simp at hlen
  have hch0 : ∀ c, c0 = some c → c.width = n ∧ c.height = n :=
    fun c hc => hsq c0 (by simp) c hc
  have hch1 : ∀ c, c1 = some c → c.width = n ∧ c.height = n :=
    fun c hc => hsq c1 (by simp) c hc
  have hch2 : ∀ c, c2 = some c → c.width = n ∧ c.height = n :=
    fun c hc => hsq c2 (by simp) c hc
  have hch3 : ∀ c, c3 = some c → c.width = n ∧ c.height = n :=
    fun c hc => hsq c3 (by simp) c hc
  have hsize := (childSizeLoop_all_n n [c0, c1, c2, c3] hsq).2
  rw [hsome, if_pos rfl] at hsize
  refine ⟨_, by rw [buildParent, if_pos hlen, hsize], ?_, ?_, ?_⟩
  · simp [quadrantOffsets, applyChild_width, imageFromPixel]
  · simp [quadrantOffsets, applyChild_height, imageFromPixel]
  · intro x y hx hy
    simpa [quadrantOffsets, List.getD] using
      fourQuadrants_pix c0 c1 c2 c3 n hch0 hch1 hch2 hch3 x y hx hy

/-- Counterexample to C7 as stated: with all four (vacuously square, equal-size)
children absent, `build_parent` yields no image at all, hence no `2N×2N` image
with white quadrants. -/
theorem build_parent_layout_counterexample :
    (buildParent [none, none, none, none]).isSome = false := rfl

/-- A concrete 1×1 red tile for the C7 witness. -/
def redTile : Image := ⟨1, 1, fun _ _ => ⟨255, 0, 0⟩⟩

lemma redTile_children_square :
    ∀ c ∈ ([none, some redTile, none, none] : List (Option Image)),
      ∀ img : Image, c = some img → img.width = 1 ∧ img.height = 1 := by
  intro c hc img himg
  simp only [List.mem_cons, List.not_mem_nil, or_false] at hc
  rcases hc with h | h | h | h <;> subst h
  · exact Option.noConfusion himg
  · injection himg with h
    subst h
    exact ⟨rfl, rfl⟩
  · exact Option.noConfusion himg
  · exact Option.noConfusion himg

/-- Witness for the amended C7 at a concrete call with one present child. -/
theorem build_parent_quadrant_layout_witness :
    ([none, some redTile, none, none] : List (Option Image)).length = 4 ∧
      ([none, some redTile, none, none] : List (Option Image)).any Option.isSome
        = true ∧
      ∃ img, buildParent [none, some redTile, none, none] = some img ∧
        img.width = 2 * 1 ∧ img.height = 2 * 1 ∧
        ∀ x y, x < 2 * 1 → y < 2 * 1 →
          img.pix x y = parentSpecPix [none, some redTile, none, none] 1 x y :=
  ⟨rfl, rfl,
   build_parent_quadrant_layout [none, some redTile, none, none] 1 rfl
     redTile_children_square rfl⟩

/-! ## X-Ray rasterization entry point (src/xray/src/generation.rs,
`xray_from_points`) and the intensity coloring strategy -/

/-- An axis-aligned bounding box (`collision::Aabb3`). -/
structure Aabb3 where
  min : Vec3
  max : Vec3
deriving DecidableEq, Repr

/-- Modelled from the spec: the containment predicate of the query box ("each
produces a lazy sequence of `Point` whose positions lie inside the region");
the concrete predicate lives in the external `collision` crate. -/
def Aabb3.containsPoint (bbox : Aabb3) (p : Vec3) : Bool :=
  decide (bbox.min.x ≤ p.x) && decide (p.x ≤ bbox.max.x) &&
    decide (bbox.min.y ≤ p.y) && decide (p.y ≤ bbox.max.y) &&
    decide (bbox.min.z ≤ p.z) && decide (p.z ≤ bbox.max.z)

/-- Modelled from the spec: `octree.points_in_box(bbox)` — the stream of exactly
the stored points lying inside the box (§4.4 invariant; the traversal machinery
is repository code outside the excerpt).  The octree is embedded as the list of
its stored points. -/
def pointsInBox (octreePoints : List Point) (bbox : Aabb3) : List Point :=
  octreePoints.filter (fun p => bbox.containsPoint p.position)

/-- Rust `as u32` applied to an `f32`: truncate toward zero, saturating at the
type's bounds. -/
def ratAsU32 (q : ℚ) : ℕ := min (max 0 ⌊q⌋).toNat (2 ^ 32 - 1)

/-- `NUM_Z_BUCKETS`. -/
def numZBuckets : ℚ := 1024

/-- A coloring strategy (the `ColoringStrategy` trait) with state `σ`. -/
structure ColoringStrategy (σ : Type) where
  processDiscretizedPoint : σ → Point → ℕ → ℕ → ℕ → σ
  getPixelColor : σ → ℕ → ℕ → Color

/-- `xray_from_points`: stream the in-box points, discretize each into pixel
and z-bucket coordinates and feed the coloring strategy; return `false` and
write nothing when no point was seen, otherwise render every pixel, save the
image and return `true`.  The written file is embedded as the optional returned
image (`none` = no file written). -/
def xrayFromPoints {σ : Type} (strategy : ColoringStrategy σ) (s0 : σ)
    (octreePoints : List Point) (bbox : Aabb3)
    (imageWidth imageHeight : ℕ) : Bool × Option Image :=
  let pts := pointsInBox octreePoints bbox
  let seenAnyPoints := !pts.isEmpty
  let sFinal := pts.foldl
    (fun s p =>
      let x := ratAsU32
        ((p.position.x - bbox.min.x) / (bbox.max.x - bbox.min.x) * imageWidth)
      let y := ratAsU32
        ((1 - (p.position.y - bbox.min.y) / (bbox.max.y - bbox.min.y))
          * imageHeight)
      let z := ratAsU32
        ((p.position.z - bbox.min.z) / (bbox.max.z - bbox.min.z) * numZBuckets)
      strategy.processDiscretizedPoint s p x y z)
    s0
  if !seenAnyPoints then (false, none)
  else
    (true, some
      { width := imageWidth
        height := imageHeight
        pix := fun x y =>
          if x < imageWidth ∧ y < imageHeight then
            let c := strategy.getPixelColor sFinal x y
            ⟨c.red, c.green, c.blue⟩
          else ⟨0, 0, 0⟩ })

/-- Claim C8: `xray_from_points` returns `false` and writes no image file exactly when
the octree contains no point inside the query bounding box; with at least one
point inside it writes the image and returns `true`. -/
theorem xray_empty_region_no_image {σ : Type} (strategy : ColoringStrategy σ)
    (s0 : σ) (octreePoints : List Point) (bbox : Aabb3)
    (imageWidth imageHeight : ℕ) :
    ((xrayFromPoints strategy s0 octreePoints bbox imageWidth imageHeight).1
        = true ↔ pointsInBox octreePoints bbox ≠ []) ∧
      ((xrayFromPoints strategy s0 octreePoints bbox imageWidth
            imageHeight).2.isSome = true
        ↔ pointsInBox octreePoints bbox ≠ []) := by
  by_cases hp : pointsInBox octreePoints bbox = []
  · simp [xrayFromPoints, hp]
  · simp [xrayFromPoints, hp, List.isEmpty_iff]

/-- The per-pixel accumulator of `IntensityColoringStrategy`
(`IntensityPerColumnData`). -/
structure IntensityPerColumnData where
  sum : ℚ
  count : ℕ
deriving DecidableEq, Repr

/-- The state of `IntensityColoringStrategy`: the intensity bounds and the
per-pixel accumulators (`FnvHashMap` embedded as an association list in
insertion order). -/
structure IntensityStrategyState where
  min : ℚ
  max : ℚ
  perColumnData : List ((ℕ × ℕ) × IntensityPerColumnData)
deriving DecidableEq, Repr

/-- The `entry((x, y))` update: add to an occupied accumulator, or insert a
fresh one with `sum = intensity, count = 1`. -/
def columnPush : List ((ℕ × ℕ) × IntensityPerColumnData) → ℕ × ℕ → ℚ →
    List ((ℕ × ℕ) × IntensityPerColumnData)
  | [], xy, i => [(xy, ⟨i, 1⟩)]
  | (k, d) :: rest, xy, i =>
      if k = xy then (k, ⟨d.sum + i, d.count + 1⟩) :: rest
      else (k, d) :: columnPush rest xy i

/-- `IntensityColoringStrategy::process_discretized_point`: panic (`none`) when
the point carries no intensity (`expect`), return with the state untouched when
the intensity is strictly negative, otherwise accumulate it into the pixel's
column. -/
def intensityProcessDiscretizedPoint (s : IntensityStrategyState) (p : Point)
    (x y _z : ℕ) : Option IntensityStrategyState :=
  match p.intensity with
  | none => none
  | some intensity =>
      if intensity < 0 then some s
      else
        some { s with perColumnData := columnPush s.perColumnData (x, y) intensity }

/-- Claim C9: processing a discretized point whose intensity is strictly negative
leaves the intensity strategy's per-pixel accumulator state entirely unchanged —
the point contributes to no pixel's sum or count. -/
theorem negative_intensity_ignored (s : IntensityStrategyState) (p : Point)
    (x y z : ℕ) (i : ℚ) (hi : p.intensity = some i) (hneg : i < 0) :
    intensityProcessDiscretizedPoint s p x y z = some s := by
  simp [intensityProcessDiscretizedPoint, hi, hneg]

/-- A sample point with a strictly negative intensity. -/
def negIntensityPoint : Point :=
  { position := ⟨0, 0, 0⟩, color := ⟨0, 0, 0, 0⟩, intensity := some (-1) }

/-- A sample intensity strategy state with one occupied pixel. -/
def sampleIntensityState : IntensityStrategyState :=
  { min := 0, max := 10, perColumnData := [((3, 4), ⟨5, 2⟩)] }

/-- Witness for C9 at a concrete negative-intensity point. -/
theorem negative_intensity_ignored_witness :
    negIntensityPoint.intensity = some (-1) ∧ (-1 : ℚ) < 0 ∧
      intensityProcessDiscretizedPoint sampleIntensityState negIntensityPoint
          3 4 7 = some sampleIntensityState :=
  ⟨rfl, by norm_num,
   negative_intensity_ignored sampleIntensityState negIntensityPoint 3 4 7 (-1)
     rfl (by norm_num)⟩

/-! ## ECEF S2 splitter (src/src/read_write/s2.rs)

The S2 cell assignment `CellID::from(point).parent(20)` is kept abstract as a
function `cellOf`; the underlying node writer `W` is embedded as a recorder of
creation and write events (its own I/O failures are not modelled — the claims
concern the domain check, the LRU and the open modes). -/

/-- `OpenMode`. -/
inductive OpenMode where
  | Truncate
  | Append
deriving DecidableEq, Repr

/-- `MAX_NUM_NODE_WRITERS`. -/
def maxNumNodeWriters : ℕ := 25

/-- `EARTH_RADIUS_MIN_M`. -/
def earthRadiusMinM : ℚ := 6352800

/-- `EARTH_RADIUS_MAX_M`. -/
def earthRadiusMaxM : ℚ := 6384400

/-- One element of an `AttributeData` column. -/
inductive AttrValue where
  | u8 (v : ℕ)
  | i64 (v : ℤ)
  | u64 (v : ℕ)
  | f32 (v : ℚ)
  | f64 (v : ℚ)
  | u8Vec3 (v : ℕ × ℕ × ℕ)
  | f64Vec3 (v : Vec3)
deriving DecidableEq, Repr

instance : Inhabited AttrValue := ⟨.u8 0⟩

/-- `PointsBatch`: positions plus named attribute columns (the `BTreeMap` is
embedded as an association list; in a well-formed batch every column has one
element per point). -/
structure PointsBatch where
  position : List Vec3
  attributes : List (String × List AttrValue)
deriving DecidableEq, Repr

/-- The squared euclidean norm of a position. -/
def Vec3.sqNorm (p : Vec3) : ℚ := p.x * p.x + p.y * p.y + p.z * p.z

/-- The radius check of `S2Splitter::write`:
`radius > EARTH_RADIUS_MAX_M || radius < EARTH_RADIUS_MIN_M` with
`radius = pos.magnitude()`, embedded through squares — for nonnegative reals
`r > M ↔ r² > M²`, so comparing `|p|²` with the squared bounds is exact. -/
def invalidEcef (p : Vec3) : Bool :=
  decide (p.sqNorm > earthRadiusMaxM * earthRadiusMaxM) ||
    decide (p.sqNorm < earthRadiusMinM * earthRadiusMinM)

/-- Push one value onto the (created-on-demand) column `key` of a grouped cell
batch: the `and_modify(push).or_insert(singleton)` entry update. -/
def attrPush : List (String × List AttrValue) → String → AttrValue →
    List (String × List AttrValue)
  | [], key, v => [(key, [v])]
  | (k, vs) :: rest, key, v =>
      if k = key then (k, vs ++ [v]) :: rest
      else (k, vs) :: attrPush rest key v

/-- Append point `i` of the incoming batch — its position and `in_vec[i]` from
each attribute column — to one S2 cell's grouped batch.  (Out-of-range indexing
would panic in the source; it is modelled by a default value and never arises
for well-formed batches.) -/
def pushPointIntoGroup (batch : PointsBatch) (i : ℕ) (pos : Vec3)
    (cellBatch : PointsBatch) : PointsBatch :=
  { position := cellBatch.position ++ [pos]
    attributes := batch.attributes.foldl
      (fun attrs kv => attrPush attrs kv.1 (kv.2.getD i default))
      cellBatch.attributes }

/-- The `batches_by_s2_cell.entry(cell).or_insert(empty)` update followed by the
per-point pushes, on the grouping map embedded as an association list in
insertion order. -/
def groupUpsert : List (ℕ × PointsBatch) → ℕ → (PointsBatch → PointsBatch) →
    List (ℕ × PointsBatch)
  | [], cell, f => [(cell, f ⟨[], []⟩)]
  | (c, b) :: rest, cell, f =>
      if c = cell then (c, f b) :: rest
      else (c, b) :: groupUpsert rest cell f

/-- The grouping loop of `S2Splitter::write`: walk the enumerated positions,
fail with the domain error (`Err(InvalidInput)`, carrying the offending point)
at the first position outside the ECEF band, and group the points by their
level-20 S2 cell. -/
def groupPoints (cellOf : Vec3 → ℕ) (batch : PointsBatch) :
    List Vec3 → ℕ → List (ℕ × PointsBatch) →
    Except Vec3 (List (ℕ × PointsBatch))
  | [], _, acc => .ok acc
  | pos :: rest, i, acc =>
      if invalidEcef pos then .error pos
      else groupPoints cellOf batch rest (i + 1)
        (groupUpsert acc (cellOf pos) (pushPointIntoGroup batch i pos))

/-- The observable events on the underlying node writers: writer creations
(with the `OpenMode` passed to `W::new`) and batch writes. -/
inductive S2Event where
  | create (cell : ℕ) (mode : OpenMode)
  | writeBatch (cell : ℕ) (batch : PointsBatch)
deriving DecidableEq, Repr

/-- The state of an `S2Splitter`: the LRU cache of open writers (keys only,
most recently used first), the `already_opened_writers` set, and the configured
open mode. -/
structure S2Splitter where
  writers : List ℕ
  alreadyOpenedWriters : List ℕ
  openMode : OpenMode
deriving DecidableEq, Repr

/-- `S2Splitter::new`. -/
def S2Splitter.new (openMode : OpenMode) : S2Splitter :=
  { writers := [], alreadyOpenedWriters := [], openMode }

/-- `LruCache::put` of a fresh key: insert at the front, evicting the least
recently used entry beyond the capacity `MAX_NUM_NODE_WRITERS`. -/
def lruPut (cellId : ℕ) (writers : List ℕ) : List ℕ :=
  if maxNumNodeWriters < (cellId :: writers).length
  then (cellId :: writers).dropLast
  else cellId :: writers

/-- `S2Splitter::writer`: on a cache hit, `get_mut` promotes the writer to most
recently used; on a miss, create the writer — with `Append` when the configured
mode is `Append` or the cell is in the seen set, else with `Truncate`,
inserting the cell into the seen set — and `put` it into the LRU. -/
def S2Splitter.writer (st : S2Splitter) (cellId : ℕ) :
    S2Splitter × List S2Event :=
  if st.writers.contains cellId then
    ({ st with writers := cellId :: st.writers.erase cellId }, [])
  else if st.openMode = OpenMode.Append ∨
      st.alreadyOpenedWriters.contains cellId then
    ({ st with writers := lruPut cellId st.writers },
     [S2Event.create cellId OpenMode.Append])
  else
    ({ st with
        writers := lruPut cellId st.writers
        alreadyOpenedWriters := cellId :: st.alreadyOpenedWriters },
     [S2Event.create cellId OpenMode.Truncate])

/-- The write-out loop of `S2Splitter::write`: feed every grouped cell batch to
that cell's writer. -/
def writeGroups : S2Splitter → List (ℕ × PointsBatch) → S2Splitter × List S2Event
  | st, [] => (st, [])
  | st, (cell, b) :: rest =>
      let step := st.writer cell
      let recur := writeGroups step.1 rest
      (recur.1, step.2 ++ [S2Event.writeBatch cell b] ++ recur.2)

/-- `S2Splitter::write`: validate and group the incoming batch — returning the
domain error before any writer is touched when some point fails the ECEF radius
check — then write each grouped cell batch through the LRU of writers. -/
def S2Splitter.write (cellOf : Vec3 → ℕ) (st : S2Splitter)
    (batch : PointsBatch) : Except Vec3 Unit × S2Splitter × List S2Event :=
  match groupPoints cellOf batch batch.position 0 [] with
  | .error p => (.error p, st, [])
  | .ok groups =>
      let out := writeGroups st groups
      (.ok (), out.1, out.2)

/-- A sequence of `write` calls against one splitter. -/
def runWrites (cellOf : Vec3 → ℕ) :
    S2Splitter → List PointsBatch → S2Splitter × List S2Event
  | st, [] => (st, [])
  | st, b :: rest =>
      let step := S2Splitter.write cellOf st b
      let recur := runWrites cellOf step.2.1 rest
      (recur.1, step.2.2 ++ recur.2)

/-- The open modes of the creation events of `cell`'s underlying writer, in
order. -/
def creationModes (cell : ℕ) (evs : List S2Event) : List OpenMode :=
  evs.filterMap fun e =>
    match e with
    | .create c m => if c = cell then some m else none
    | .writeBatch _ _ => none

lemma groupPoints_error_iff (cellOf : Vec3 → ℕ) (batch : PointsBatch) :
    ∀ (ps : List Vec3) (i : ℕ) (acc : List (ℕ × PointsBatch)),
      (∃ p, groupPoints cellOf batch ps i acc = .error p) ↔
        ∃ p ∈ ps, invalidEcef p = true := by
  intro ps
  induction ps with
  | nil => intro i acc; simp [groupPoints]
  | cons q qs ih =>
      intro i acc
      by_cases hq : invalidEcef q
      · simp [groupPoints, hq]
      · simp [groupPoints, hq, ih]

/-- Claim C6: `S2Splitter::write` fails with the domain error if and only if some
point of the batch has distance from the origin strictly outside the band
`[6 352 800, 6 384 400]` metres; in particular a point whose radius sits exactly
on either boundary passes the check. -/
theorem write_domain_error_iff (cellOf : Vec3 → ℕ) (st : S2Splitter)
    (batch : PointsBatch) :
    ((∃ p, (S2Splitter.write cellOf st batch).1 = .error p) ↔
        ∃ p ∈ batch.position, invalidEcef p = true) ∧
      invalidEcef ⟨earthRadiusMinM, 0, 0⟩ = false ∧
      invalidEcef ⟨earthRadiusMaxM, 0, 0⟩ = false := by
  refine ⟨?_, by norm_num [invalidEcef, Vec3.sqNorm, earthRadiusMinM, earthRadiusMaxM],
    by norm_num [invalidEcef, Vec3.sqNorm, earthRadiusMinM, earthRadiusMaxM]⟩
  rcases hg : groupPoints cellOf batch batch.position 0 [] with p | groups
  · have hsome := (groupPoints_error_iff cellOf batch batch.position 0 []).mp ⟨p, hg⟩
    constructor
    · intro _; exact hsome
    · intro _; exact ⟨p, by simp [S2Splitter.write, hg]⟩
  · have hno : ¬∃ p ∈ batch.position, invalidEcef p = true := by
      rw [← groupPoints_error_iff cellOf batch batch.position 0 []]
      rintro ⟨p, hp⟩
      rw [hg] at hp
      exact Except.noConfusion hp
    constructor
    · rintro ⟨p, hp⟩
      simp [S2Splitter.write, hg] at hp
    · intro h; exact absurd h hno

/-- Claim C10: `S2Splitter::write` is atomic on the domain error — when some point of
the batch fails the ECEF radius check, the call errors with the splitter state
(LRU and seen set) unchanged and without creating or writing any underlying
writer, so nothing of the batch, the valid points included, is persisted. -/
theorem write_atomic_on_domain_error (cellOf : Vec3 → ℕ) (st : S2Splitter)
    (batch : PointsBatch)
    (h : ∃ p ∈ batch.position, invalidEcef p = true) :
    (∃ q, (S2Splitter.write cellOf st batch).1 = .error q) ∧
      (S2Splitter.write cellOf st batch).2.1 = st ∧
      (S2Splitter.write cellOf st batch).2.2 = [] := by
  have herr := (groupPoints_error_iff cellOf batch batch.position 0 []).mpr h
  obtain ⟨p, hp⟩ := herr
  exact ⟨⟨p, by simp [S2Splitter.write, hp]⟩,
    by simp [S2Splitter.write, hp], by simp [S2Splitter.write, hp]⟩

/-- A position inside the ECEF band. -/
def validEcefPoint : Vec3 := ⟨6360000, 0, 0⟩

/-- A position far inside the earth, outside the ECEF band. -/
def invalidEcefPoint : Vec3 := ⟨1, 2, 2⟩

/-- A batch whose first point is valid and whose second point fails the radius
check. -/
def mixedEcefBatch : PointsBatch :=
  { position := [validEcefPoint, invalidEcefPoint]
    attributes := [("color", [.u8Vec3 (1, 2, 3), .u8Vec3 (4, 5, 6)])] }

lemma invalidEcefPoint_invalid : invalidEcef invalidEcefPoint = true := by
  simp only [invalidEcef, Vec3.sqNorm, invalidEcefPoint, earthRadiusMinM,
    earthRadiusMaxM, Bool.or_eq_true, decide_eq_true_eq]
  norm_num

lemma mixedEcefBatch_has_invalid :
    ∃ p ∈ mixedEcefBatch.position, invalidEcef p = true :=
  ⟨invalidEcefPoint, by simp [mixedEcefBatch], invalidEcefPoint_invalid⟩

/-- Witness for C10 at a concrete batch with a valid point before the failing
one. -/
theorem write_atomic_on_domain_error_witness :
    (∃ p ∈ mixedEcefBatch.position, invalidEcef p = true) ∧
      ((∃ q, (S2Splitter.write (fun _ => 0) (S2Splitter.new .Truncate)
              mixedEcefBatch).1 = .error q) ∧
        (S2Splitter.write (fun _ => 0) (S2Splitter.new .Truncate)
            mixedEcefBatch).2.1 = S2Splitter.new .Truncate ∧
        (S2Splitter.write (fun _ => 0) (S2Splitter.new .Truncate)
            mixedEcefBatch).2.2 = []) :=
  ⟨mixedEcefBatch_has_invalid,
   write_atomic_on_domain_error (fun _ => 0) (S2Splitter.new .Truncate)
     mixedEcefBatch mixedEcefBatch_has_invalid⟩

/-- The invariant tying a splitter's state to the creation events it has
produced: the configured mode is fixed; at most `MAX_NUM_NODE_WRITERS` writers
are open; with configured mode `Append` the seen set stays empty; every cell's
creation-mode history is empty or the configured mode followed by `Append`s;
and with configured mode `Truncate` the seen set holds exactly the
already-created cells. -/
def SplitterInv (mode : OpenMode) (st : S2Splitter) (evs : List S2Event) : Prop :=
  st.openMode = mode ∧
    st.writers.length ≤ maxNumNodeWriters ∧
    (mode = OpenMode.Append → st.alreadyOpenedWriters = []) ∧
    (∀ c, creationModes c evs = [] ∨
      ∃ k, creationModes c evs = mode :: List.replicate k OpenMode.Append) ∧
    (mode = OpenMode.Truncate →
      ∀ c, st.alreadyOpenedWriters.contains c = true ↔ creationModes c evs ≠ [])

lemma creationModes_append (cell : ℕ) (evs evs' : List S2Event) :
    creationModes cell (evs ++ evs')
      = creationModes cell evs ++ creationModes cell evs' := by
  simp [creationModes]

lemma creationModes_create (cell c : ℕ) (m : OpenMode) :
    creationModes cell [S2Event.create c m] = if c = cell then [m] else [] := by
  by_cases h : c = cell <;> simp [creationModes, h]

lemma creationModes_writeBatch (cell c : ℕ) (b : PointsBatch) :
    creationModes cell [S2Event.writeBatch c b] = [] := by
  simp [creationModes]

lemma shape_snoc_append {mode : OpenMode} {l : List OpenMode}
    (h : l = [] ∨ ∃ k, l = mode :: List.replicate k OpenMode.Append)
    (hne : l ≠ [] ∨ mode = OpenMode.Append) :
    ∃ k, l ++ [OpenMode.Append] = mode :: List.replicate k OpenMode.Append := by
  rcases h with h | ⟨k, h⟩
  · rcases hne with hne | hmode
    · exact absurd h hne
    · exact ⟨0, by simp [h, hmode]⟩
  · exact ⟨k + 1, by simp [h, List.replicate_succ']⟩

lemma lruPut_length_le (cellId : ℕ) (writers : List ℕ)
    (h : writers.length ≤ maxNumNodeWriters) :
    (lruPut cellId writers).length ≤ maxNumNodeWriters := by
  unfold lruPut
  by_cases h25 : maxNumNodeWriters < (cellId :: writers).length
  · rw [if_pos h25, List.length_dropLast, List.length_cons]
    simp only [List.length_cons] at h25
    omega
  · rw [if_neg h25, List.length_cons]
    simp only [List.length_cons] at h25
    omega

lemma writer_inv {mode : OpenMode} {st : S2Splitter} {evs : List S2Event}
    (cellId : ℕ) (hinv : SplitterInv mode st evs) :
    SplitterInv mode (st.writer cellId).1 (evs ++ (st.writer cellId).2) := by
  obtain ⟨hmode, hlen, happ, hcm, htr⟩ := hinv
  by_cases hhit : st.writers.contains cellId = true
  · -- cache hit: pure promotion, no event
    have hw : st.writer cellId
        = ({ st with writers := cellId :: st.writers.erase cellId }, []) := by
      unfold S2Splitter.writer
      rw [if_pos hhit]
    rw [hw]
    show SplitterInv mode
      { st with writers := cellId :: st.writers.erase cellId } (evs ++ [])
    rw [List.append_nil]
    have hmem : cellId ∈ st.writers := by simpa using hhit
    have herase := List.length_erase_of_mem hmem
    have hpos : 0 < st.writers.length :=
      List.length_pos.mpr (List.ne_nil_of_mem hmem)
    exact ⟨hmode, by simp only [List.length_cons, herase]; omega, happ, hcm, htr⟩
  · by_cases hcond : st.openMode = OpenMode.Append ∨
        st.alreadyOpenedWriters.contains cellId = true
    · -- miss, append-mode or reopened: create with Append, seen unchanged
      have hw : st.writer cellId
          = ({ st with writers := lruPut cellId st.writers },
             [S2Event.create cellId OpenMode.Append]) := by
        unfold S2Splitter.writer
        rw [if_neg hhit, if_pos hcond]
      rw [hw]
      show SplitterInv mode { st with writers := lruPut cellId st.writers }
        (evs ++ [S2Event.create cellId OpenMode.Append])
      refine ⟨hmode, lruPut_length_le cellId st.writers hlen, happ, ?_, ?_⟩
      · intro c
        rw [creationModes_append, creationModes_create]
        by_cases hc : cellId = c
        · subst hc
          rw [if_pos rfl]
          refine Or.inr (shape_snoc_append (hcm cellId) ?_)
          rcases hcond with hA | hS
          · exact Or.inr (hmode.symm.trans hA)
          · left
            cases mode with
            | Append =>
                rw [happ rfl] at hS
                simp [List.contains] at hS
            | Truncate => exact (htr rfl cellId).mp hS
        · rw [if_neg hc, List.append_nil]
          exact hcm c
      · intro hmodeT c
        rw [creationModes_append, creationModes_create]
        by_cases hc : cellId = c
        · subst hc
          rw [if_pos rfl]
          constructor
          · intro _; simp
          · intro _
            rcases hcond with hA | hS
            · exact absurd (hmode.symm.trans hA) (by rw [hmodeT]; simp)
            · exact hS
        · rw [if_neg hc, List.append_nil]
          exact htr hmodeT c
    · -- miss, first touch with configured mode Truncate
      have hmodeT : mode = OpenMode.Truncate := by
        cases hOM : st.openMode with
        | Truncate => exact (hOM.symm.trans hmode).symm
        | Append => exact absurd (Or.inl hOM) hcond
      have hnotseen : ¬st.alreadyOpenedWriters.contains cellId = true :=
        fun h => hcond (Or.inr h)
      have hw : st.writer cellId
          = ({ st with
                writers := lruPut cellId st.writers
                alreadyOpenedWriters := cellId :: st.alreadyOpenedWriters },
             [S2Event.create cellId OpenMode.Truncate]) := by
        unfold S2Splitter.writer
        rw [if_neg hhit, if_neg hcond]
      rw [hw]
      show SplitterInv mode
        { st with
            writers := lruPut cellId st.writers
            alreadyOpenedWriters := cellId :: st.alreadyOpenedWriters }
        (evs ++ [S2Event.create cellId OpenMode.Truncate])
      refine ⟨hmode, lruPut_length_le cellId st.writers hlen, ?_, ?_, ?_⟩
      · intro hA
        exact absurd (hmodeT.symm.trans hA) (by simp)
      · intro c
        rw [creationModes_append, creationModes_create]
        by_cases hc : cellId = c
        · subst hc
          rw [if_pos rfl]
          have hempty : creationModes cellId evs = [] := by
            by_contra hne
            exact hnotseen ((htr hmodeT cellId).mpr hne)
          exact Or.inr ⟨0, by simp [hempty, hmodeT]⟩
        · rw [if_neg hc, List.append_nil]
          exact hcm c
      · intro _ c
        rw [creationModes_append, creationModes_create]
        by_cases hc : cellId = c
        · subst hc
          rw [if_pos rfl]
          refine ⟨fun _ => by simp, fun _ => ?_⟩
          rw [List.contains_cons]
          simp
        · rw [if_neg hc, List.append_nil, List.contains_cons]
          have hbeq : (c == cellId) = false :=
            beq_eq_false_iff_ne.mpr fun h => hc h.symm
          rw [hbeq, Bool.false_or]
          exact htr hmodeT c

lemma inv_writeBatch {mode : OpenMode} {st : S2Splitter} {evs : List S2Event}
    (cell : ℕ) (b : PointsBatch) (hinv : SplitterInv mode st evs) :
    SplitterInv mode st (evs ++ [S2Event.writeBatch cell b]) := by
  obtain ⟨hmode, hlen, happ, hcm, htr⟩ := hinv
  refine ⟨hmode, hlen, happ, ?_, ?_⟩
  · intro c
    rw [creationModes_append, creationModes_writeBatch, List.append_nil]
    exact hcm c
  · intro hT c
    rw [creationModes_append, creationModes_writeBatch, List.append_nil]
    exact htr hT c

lemma writeGroups_inv {mode : OpenMode} :
    ∀ (groups : List (ℕ × PointsBatch)) (st : S2Splitter) (evs : List S2Event),
      SplitterInv mode st evs →
      SplitterInv mode (writeGroups st groups).1
        (evs ++ (writeGroups st groups).2) := by
  intro groups
  induction groups with
  | nil => intro st evs h; simpa [writeGroups] using h
  | cons g rest ih =>
      intro st evs h
      rcases g with ⟨cell, b⟩
      have h1 := writer_inv cell h
      have h2 := inv_writeBatch cell b h1
      have h3 := ih (st.writer cell).1
        ((evs ++ (st.writer cell).2) ++ [S2Event.writeBatch cell b]) h2
      show SplitterInv mode (writeGroups (st.writer cell).1 rest).1
        (evs ++ ((st.writer cell).2 ++ [S2Event.writeBatch cell b]
          ++ (writeGroups (st.writer cell).1 rest).2))
      simpa [List.append_assoc] using h3

lemma write_inv {mode : OpenMode} (cellOf : Vec3 → ℕ) (b : PointsBatch)
    {st : S2Splitter} {evs : List S2Event} (hinv : SplitterInv mode st evs) :
    SplitterInv mode (S2Splitter.write cellOf st b).2.1
      (evs ++ (S2Splitter.write cellOf st b).2.2) := by
  rcases hg : groupPoints cellOf b b.position 0 [] with p | groups
  · simp only [S2Splitter.write, hg]
    simpa using hinv
  · simp only [S2Splitter.write, hg]
    exact writeGroups_inv groups st evs hinv

lemma runWrites_inv {mode : OpenMode} (cellOf : Vec3 → ℕ) :
    ∀ (batches : List PointsBatch) (st : S2Splitter) (evs : List S2Event),
      SplitterInv mode st evs →
      SplitterInv mode (runWrites cellOf st batches).1
        (evs ++ (runWrites cellOf st batches).2) := by
  intro batches
  induction batches with
  | nil => intro st evs h; simpa [runWrites] using h
  | cons b rest ih =>
      intro st evs h
      have h1 := write_inv cellOf b h
      have h2 := ih (S2Splitter.write cellOf st b).2.1
        (evs ++ (S2Splitter.write cellOf st b).2.2) h1
      show SplitterInv mode
        (runWrites cellOf (S2Splitter.write cellOf st b).2.1 rest).1
        (evs ++ ((S2Splitter.write cellOf st b).2.2
          ++ (runWrites cellOf (S2Splitter.write cellOf st b).2.1 rest).2))
      simpa [List.append_assoc] using h2

lemma splitterInv_init (mode : OpenMode) :
    SplitterInv mode (S2Splitter.new mode) [] := by
  refine ⟨rfl, by simp [S2Splitter.new, maxNumNodeWriters], fun _ => rfl,
    fun c => Or.inl rfl, fun _ c => ?_⟩
  simp [S2Splitter.new, creationModes, List.contains]

/-- Claim C5: over any sequence of `write` calls on one `S2Splitter`, at most
`MAX_NUM_NODE_WRITERS = 25` underlying writers are held open at once, and each
cell's history of writer creations is either empty or the configured open mode
followed only by `Append`s — so with configured mode `Truncate` the cell's
writer is created with `Truncate` exactly once, on the cell's first touch, and
every later re-creation (in particular after LRU eviction) uses `Append`, while
with configured mode `Append` every creation uses `Append`. -/
theorem splitter_lru_and_truncate_once (mode : OpenMode) (cellOf : Vec3 → ℕ)
    (batches : List PointsBatch) :
    (runWrites cellOf (S2Splitter.new mode) batches).1.writers.length
        ≤ maxNumNodeWriters ∧
      ∀ c,
        creationModes c (runWrites cellOf (S2Splitter.new mode) batches).2 = []
          ∨ ∃ k,
            creationModes c (runWrites cellOf (S2Splitter.new mode) batches).2
              = mode :: List.replicate k OpenMode.Append := by
  have h := runWrites_inv cellOf batches (S2Splitter.new mode) []
    (splitterInv_init mode)
  rw [List.nil_append] at h
  exact ⟨h.2.1, h.2.2.2.1⟩

end PointCloudViewer
